import Mathlib

/-!
Verification of the Minima Hopping search-and-archive controller
(`src/python/mh.py` and `minimahopping/mh/file_handling.py`).

The numeric domain of the Python code (IEEE floats) is embedded as exact
rationals `ℚ`; square roots (`np.linalg.norm`, `np.sqrt`) live in `ℝ`.
The external assignment solver `scipy.optimize.linear_sum_assignment` is
modelled relationally by its contract: it returns an assignment minimizing
the total matched cost, with tie-breaking left unspecified.
-/

namespace MH

/-- Default settings of `Minimahopping._default_settings` (mh.py lines 30-54),
restricted to the constants the verified claims use, as exact rationals. -/
def T0 : ℚ := 2000

/-- `'beta_decrease': 1. / 1.1` -/
def beta_decrease : ℚ := 1 / (11/10)

/-- `'beta_increase': 1.1` -/
def beta_increase : ℚ := 11/10

/-- `'Ediff0' : .01` -/
def Ediff0 : ℚ := 1/100

/-- `'alpha_a' : 0.95` -/
def alpha_a : ℚ := 19/20

/-- `'alpha_r' : 1.05` -/
def alpha_r : ℚ := 21/20

/-- `'energy_threshold' : 0.00005` -/
def energy_threshold_default : ℚ := 1/20000

/-- `'minima_threshold' : 5.e-3` -/
def minima_threshold_default : ℚ := 1/200

/-- A structural descriptor as consumed by `Minimahopping.fp_distance`
(mh.py lines 632-661): either a 1-D vector (global fingerprint of a
non-periodic system) or a 2-D array of per-site vectors (periodic system).
The numpy dimensionality (`len(desc.shape)`) is the constructor. -/
inductive Desc where
  | vec (v : List ℚ)
  | mat (m : List (List ℚ))
deriving DecidableEq, Repr

/-- Sum of squared componentwise differences: `np.dot(v - w, v - w)`
(equivalently the square of `np.linalg.norm(v - w)`) for equal-length
vectors. -/
def sqdist : List ℚ → List ℚ → ℚ
  | a :: v, b :: w => (a - b) * (a - b) + sqdist v w
  | _, _ => 0

lemma sqdist_nonneg (v w : List ℚ) : 0 ≤ sqdist v w := by
  induction v generalizing w with
  | nil => simp [sqdist]
  | cons a v ih =>
    cases w with
    | nil => simp [sqdist]
    | cons b w => exact add_nonneg (mul_self_nonneg _) (ih w)

/-- Sum of squared matched row distances under assignment `σ`:
the quantity accumulated into `fp_dist` in the 2-D branch of
`fp_distance` (mh.py lines 656-658), before the final `np.sqrt`. -/
def sqSum (m1 m2 : List (List ℚ)) (σ : Equiv.Perm (Fin m1.length)) : ℚ :=
  ∑ i : Fin m1.length, sqdist (m1.get i) (m2.getD (σ i : ℕ) [])

lemma sqSum_nonneg (m1 m2 : List (List ℚ)) (σ : Equiv.Perm (Fin m1.length)) :
    0 ≤ sqSum m1 m2 σ :=
  Finset.sum_nonneg fun _ _ => sqdist_nonneg _ _

/-- Contract of `scipy.optimize.linear_sum_assignment` on the cost matrix
built by `Minimahopping._costmatrix` (mh.py lines 663-680): the chosen
assignment `σ` minimizes the total matched cost, where the cost of pairing
row `i` of `desc1` with row `j` of `desc2` is the Euclidean distance
`np.linalg.norm(vec1 - vec2)` — the square root of `sqdist`, NOT its
square. -/
def IsOptAssign (m1 m2 : List (List ℚ)) (σ : Equiv.Perm (Fin m1.length)) : Prop :=
  ∀ τ : Equiv.Perm (Fin m1.length),
    (∑ i : Fin m1.length, Real.sqrt ((sqdist (m1.get i) (m2.getD (σ i : ℕ) []) : ℚ) : ℝ)) ≤
      ∑ i : Fin m1.length, Real.sqrt ((sqdist (m1.get i) (m2.getD (τ i : ℕ) []) : ℚ) : ℝ)

/-- `Minimahopping.fp_distance` (mh.py lines 632-661) as a relation between
the two descriptors and the returned scalar.  The 1-D branch returns
`np.linalg.norm(desc1 - desc2)`; the 2-D branch solves the assignment
problem on the `_costmatrix` and returns the square root of the sum of the
squared matched distances.  The conjunct shape conditions are the `assert`s
executed on the way (equal dimensionality in `fp_distance`, equal row count
in `_costmatrix`): a failed assert means no value is returned, i.e. the
relation is empty there. -/
def fp_distance : Desc → Desc → ℝ → Prop
  | .vec v1, .vec v2, r => v1.length = v2.length ∧ r = Real.sqrt ((sqdist v1 v2 : ℚ) : ℝ)
  | .mat m1, .mat m2, r => m1.length = m2.length ∧
      ∃ σ : Equiv.Perm (Fin m1.length),
        IsOptAssign m1 m2 σ ∧ r = Real.sqrt ((sqSum m1 m2 σ : ℚ) : ℝ)
  | _, _, _ => False

/-- Whether the shape `assert`s of `fp_distance` / `_costmatrix` pass:
`assert n_dim1 == n_dim2` (mh.py line 647) and, in the 2-D branch,
`assert desc1.shape[0] == desc2.shape[0]` (mh.py line 673). -/
def fpShapeOk : Desc → Desc → Bool
  | .vec _, .vec _ => true
  | .mat m1, .mat m2 => m1.length == m2.length
  | _, _ => false

/-- All rows have one common length (numpy 2-D arrays are rectangular). -/
def allEqLen (rows : List (List ℚ)) : Bool :=
  rows.all (fun r => r.length == (rows.headD []).length)

/-- Fully matching numpy shapes: equal dimensionality and, per dimension,
equal extents. -/
def sameShape : Desc → Desc → Bool
  | .vec v1, .vec v2 => v1.length == v2.length
  | .mat m1, .mat m2 => m1.length == m2.length && allEqLen (m1 ++ m2)
  | _, _ => false

lemma exists_optAssign (m1 m2 : List (List ℚ)) :
    ∃ σ : Equiv.Perm (Fin m1.length), IsOptAssign m1 m2 σ := by
  obtain ⟨σ, -, hσ⟩ :=
    Finset.exists_min_image (Finset.univ : Finset (Equiv.Perm (Fin m1.length)))
      (fun τ => ∑ i : Fin m1.length,
        Real.sqrt ((sqdist (m1.get i) (m2.getD (τ i : ℕ) []) : ℚ) : ℝ))
      ⟨1, Finset.mem_univ 1⟩
  exact ⟨σ, fun τ => hσ τ (Finset.mem_univ τ)⟩

/-- C9: `fp_distance` on a 1-D/2-D descriptor pair, or on two 2-D
descriptors with different row counts, fails its shape assertions (and
relates to no return value); on any pair of descriptors of fully matching
shape it returns a scalar without raising. -/
theorem c9_shape_contract :
    (∀ (v : List ℚ) (m : List (List ℚ)) (r : ℝ),
        fpShapeOk (.vec v) (.mat m) = false ∧ fpShapeOk (.mat m) (.vec v) = false ∧
        ¬ fp_distance (.vec v) (.mat m) r ∧ ¬ fp_distance (.mat m) (.vec v) r) ∧
    (∀ m1 m2 : List (List ℚ), m1.length ≠ m2.length →
        fpShapeOk (.mat m1) (.mat m2) = false ∧
        ∀ r : ℝ, ¬ fp_distance (.mat m1) (.mat m2) r) ∧
    (∀ d1 d2 : Desc, sameShape d1 d2 = true → ∃ r : ℝ, fp_distance d1 d2 r) := by
  refine ⟨fun v m r => ⟨rfl, rfl, fun h => h.elim, fun h => h.elim⟩, ?_, ?_⟩
  · intro m1 m2 h
    refine ⟨by simpa [fpShapeOk] using h, fun r hr => h hr.1⟩
  · intro d1 d2 h
    cases d1 with
    | vec v1 =>
      cases d2 with
      | vec v2 =>
        exact ⟨Real.sqrt ((sqdist v1 v2 : ℚ) : ℝ), by simpa [sameShape] using h, rfl⟩
      | mat m2 => simp [sameShape] at h
    | mat m1 =>
      cases d2 with
      | vec v2 => simp [sameShape] at h
      | mat m2 =>
        obtain ⟨σ, hσ⟩ := exists_optAssign m1 m2
        refine ⟨Real.sqrt ((sqSum m1 m2 σ : ℚ) : ℝ), ?_, σ, hσ, rfl⟩
        have h2 := h
        simp only [sameShape, Bool.and_eq_true, beq_iff_eq] at h2
        exact h2.1

/-- Witness for `c9_shape_contract` at concrete inputs: the row-count
assert fails on a 1-row vs 0-row pair, and two equal-shape flat
descriptors yield a distance. -/
theorem c9_shape_contract_witness :
    fpShapeOk (.mat [[1]]) (.mat []) = false ∧
    (∃ r : ℝ, fp_distance (.vec [1, 2, 3]) (.vec [1, 2, 3]) r) :=
  ⟨(c9_shape_contract.2.1 [[1]] [] (by decide)).1,
   c9_shape_contract.2.2 (.vec [1, 2, 3]) (.vec [1, 2, 3]) (by decide)⟩

lemma linCost_zero_of_sqSum_zero (m1 m2 : List (List ℚ))
    (σ : Equiv.Perm (Fin m1.length)) (h : sqSum m1 m2 σ = 0) :
    (∑ i : Fin m1.length,
      Real.sqrt ((sqdist (m1.get i) (m2.getD (σ i : ℕ) []) : ℚ) : ℝ)) = 0 := by
  refine Finset.sum_eq_zero fun i _ => ?_
  have hz : sqdist (m1.get i) (m2.getD (σ i : ℕ) []) = 0 :=
    (Finset.sum_eq_zero_iff_of_nonneg fun j _ => sqdist_nonneg _ _).1 h i (Finset.mem_univ i)
  rw [hz]
  simp

lemma sqSum_zero_of_linCost_nonpos (m1 m2 : List (List ℚ))
    (σ : Equiv.Perm (Fin m1.length))
    (h : (∑ i : Fin m1.length,
      Real.sqrt ((sqdist (m1.get i) (m2.getD (σ i : ℕ) []) : ℚ) : ℝ)) ≤ 0) :
    sqSum m1 m2 σ = 0 := by
  have hsum : (∑ i : Fin m1.length,
      Real.sqrt ((sqdist (m1.get i) (m2.getD (σ i : ℕ) []) : ℚ) : ℝ)) = 0 :=
    le_antisymm h (Finset.sum_nonneg fun i _ => Real.sqrt_nonneg _)
  have hterm := (Finset.sum_eq_zero_iff_of_nonneg
    fun (i : Fin m1.length) _ => Real.sqrt_nonneg
      ((sqdist (m1.get i) (m2.getD (σ i : ℕ) []) : ℚ) : ℝ)).1 hsum
  refine Finset.sum_eq_zero fun i _ => ?_
  have h1 := hterm i (Finset.mem_univ i)
  have h2 : ((sqdist (m1.get i) (m2.getD (σ i : ℕ) []) : ℚ) : ℝ) ≤ 0 :=
    Real.sqrt_eq_zero'.1 h1
  have h3 : (0 : ℚ) ≤ sqdist (m1.get i) (m2.getD (σ i : ℕ) []) := sqdist_nonneg _ _
  exact le_antisymm (by exact_mod_cast h2) h3

lemma perm_fin_two (σ : Equiv.Perm (Fin 2)) : σ = 1 ∨ σ = Equiv.swap 0 1 := by
  revert σ
  decide

/-- The permuted-rows scenario pair of the specification:
`[[0,0],[1,1]]` versus `[[1,1],[0,0]]`. -/
def d1c : List (List ℚ) := [[0, 0], [1, 1]]

def d2c : List (List ℚ) := [[1, 1], [0, 0]]

lemma c2_sqSum_swap : sqSum d1c d2c (Equiv.swap 0 1 : Equiv.Perm (Fin 2)) = 0 := by
  show (∑ i : Fin 2,
    sqdist (d1c.get i) (d2c.getD ((Equiv.swap 0 1 : Equiv.Perm (Fin 2)) i : ℕ) [])) = 0
  rw [Fin.sum_univ_two]
  norm_num [d1c, d2c, sqdist]

lemma c2_rel_zero : fp_distance (.mat d1c) (.mat d2c) 0 := by
  have h0 := c2_sqSum_swap
  refine ⟨rfl, (Equiv.swap 0 1 : Equiv.Perm (Fin 2)), fun τ => ?_, ?_⟩
  · rw [linCost_zero_of_sqSum_zero _ _ _ h0]
    exact Finset.sum_nonneg fun i _ => Real.sqrt_nonneg _
  · rw [h0]
    simp

lemma c2_unique (r : ℝ) (h : fp_distance (.mat d1c) (.mat d2c) r) : r = 0 := by
  obtain ⟨-, σ, hopt, hr⟩ := h
  have h0 := c2_sqSum_swap
  have hle := hopt (Equiv.swap 0 1 : Equiv.Perm (Fin 2))
  rw [linCost_zero_of_sqSum_zero _ _ _ h0] at hle
  have hz : sqSum d1c d2c σ = 0 := sqSum_zero_of_linCost_nonpos _ _ _ hle
  rw [hr, hz]
  simp

/-- C2 (counterexample): on the pair `[[0,0],[1,1]]` / `[[1,1],[0,0]]` the
code does NOT return `2.0` — the optimal assignment pairs each row with its
identical partner at cost 0. -/
theorem c2_counterexample : ¬ fp_distance (.mat d1c) (.mat d2c) 2 := by
  intro h
  have := c2_unique 2 h
  norm_num at this

/-- C2 (amended): on the pair `[[0,0],[1,1]]` / `[[1,1],[0,0]]`,
`fp_distance` returns `0.0`: the two matrices are row permutations of each
other, so — consistently with the zero-iff-identical-up-to-permutation
contract — the optimal assignment matches site 0 to row 1 and site 1 to
row 0 with each matched pair at distance 0, and 0 is the only value the
solver contract permits. -/
theorem c2_fp_distance_permuted_rows :
    fp_distance (.mat d1c) (.mat d2c) 0 ∧
    ∀ r : ℝ, fp_distance (.mat d1c) (.mat d2c) r → r = 0 :=
  ⟨c2_rel_zero, c2_unique⟩

/-- Witness for `c2_fp_distance_permuted_rows`, discharging its
hypothesis at the returned value `0`. -/
theorem c2_fp_distance_permuted_rows_witness :
    fp_distance (.mat d1c) (.mat d2c) 0 ∧ (0 : ℝ) = 0 :=
  ⟨c2_fp_distance_permuted_rows.1,
   c2_fp_distance_permuted_rows.2 0 c2_fp_distance_permuted_rows.1⟩

lemma sqrt_eval (q : ℚ) (n : ℝ) (h1 : 0 ≤ n) (h2 : (q : ℝ) = n ^ 2) :
    Real.sqrt (q : ℝ) = n := by rw [h2, Real.sqrt_sq h1]

/-- A 2-site descriptor pair on which the minimum-total-distance assignment
differs from the minimum-total-squared-distance assignment: the pairwise
distances are 0 and 37 on the diagonal and 20 and 19 off it. -/
def m1x : List (List ℚ) := [[0, 0], [19, 0]]

def m2x : List (List ℚ) := [[0, 0], [-16, 12]]

lemma c3_lin_id : (∑ i : Fin 2,
    Real.sqrt ((sqdist (m1x.get i)
      (m2x.getD (((1 : Equiv.Perm (Fin 2)) i : ℕ)) []) : ℚ) : ℝ)) = 37 := by
  rw [Fin.sum_univ_two]
  rw [sqrt_eval (sqdist (m1x.get (0 : Fin 2))
      (m2x.getD (((1 : Equiv.Perm (Fin 2)) 0 : ℕ)) [])) 0 le_rfl
      (by norm_num [m1x, m2x, sqdist])]
  rw [sqrt_eval (sqdist (m1x.get (1 : Fin 2))
      (m2x.getD (((1 : Equiv.Perm (Fin 2)) 1 : ℕ)) [])) 37 (by norm_num)
      (by norm_num [m1x, m2x, sqdist])]
  norm_num

lemma c3_lin_swap : (∑ i : Fin 2,
    Real.sqrt ((sqdist (m1x.get i)
      (m2x.getD ((((Equiv.swap 0 1) : Equiv.Perm (Fin 2)) i : ℕ)) []) : ℚ) : ℝ)) = 39 := by
  rw [Fin.sum_univ_two]
  rw [sqrt_eval (sqdist (m1x.get (0 : Fin 2))
      (m2x.getD (((Equiv.swap 0 1 : Equiv.Perm (Fin 2)) 0 : ℕ)) [])) 20 (by norm_num)
      (by norm_num [m1x, m2x, sqdist])]
  rw [sqrt_eval (sqdist (m1x.get (1 : Fin 2))
      (m2x.getD (((Equiv.swap 0 1 : Equiv.Perm (Fin 2)) 1 : ℕ)) [])) 19 (by norm_num)
      (by norm_num [m1x, m2x, sqdist])]
  norm_num

lemma c3_sqSum_id : sqSum m1x m2x (1 : Equiv.Perm (Fin 2)) = 1369 := by
  show (∑ i : Fin 2,
    sqdist (m1x.get i) (m2x.getD (((1 : Equiv.Perm (Fin 2)) i : ℕ)) [])) = 1369
  rw [Fin.sum_univ_two]
  norm_num [m1x, m2x, sqdist]

lemma c3_sqSum_swap : sqSum m1x m2x (Equiv.swap 0 1 : Equiv.Perm (Fin 2)) = 761 := by
  show (∑ i : Fin 2,
    sqdist (m1x.get i) (m2x.getD (((Equiv.swap 0 1 : Equiv.Perm (Fin 2)) i : ℕ)) [])) = 761
  rw [Fin.sum_univ_two]
  norm_num [m1x, m2x, sqdist]

/-- The code relates `m1x`/`m2x` to the value 37: the identity assignment
has total matched distance 0 + 37 = 37, strictly below the swap assignment
at 20 + 19 = 39, and the returned value is `sqrt (0 + 1369) = 37`. -/
lemma c3_rel_37 : fp_distance (.mat m1x) (.mat m2x) 37 := by
  refine ⟨rfl, (1 : Equiv.Perm (Fin 2)), fun τ => ?_, ?_⟩
  · rcases perm_fin_two τ with h | h <;> subst h
    · exact le_refl _
    · show (∑ i : Fin 2,
          Real.sqrt ((sqdist (m1x.get i)
            (m2x.getD (((1 : Equiv.Perm (Fin 2)) i : ℕ)) []) : ℚ) : ℝ)) ≤
        ∑ i : Fin 2,
          Real.sqrt ((sqdist (m1x.get i)
            (m2x.getD ((((Equiv.swap 0 1) : Equiv.Perm (Fin 2)) i : ℕ)) []) : ℚ) : ℝ)
      rw [c3_lin_id, c3_lin_swap]
      norm_num
  · rw [c3_sqSum_id]
    rw [sqrt_eval 1369 37 (by norm_num) (by norm_num)]

/-- C3 (counterexample): on `m1x`/`m2x` the code returns 37, yet no
assignment can simultaneously be optimal for the solver's objective (total
matched distance), produce 37, and minimize the sum of squared matched
distances — the sum-of-squares-minimizing assignment is the swap, whose
sum of squares is 761 < 1369. -/
theorem c3_counterexample :
    fp_distance (.mat m1x) (.mat m2x) 37 ∧
    ¬ ∃ σ : Equiv.Perm (Fin m1x.length), IsOptAssign m1x m2x σ ∧
        (37 : ℝ) = Real.sqrt ((sqSum m1x m2x σ : ℚ) : ℝ) ∧
        ∀ τ : Equiv.Perm (Fin m1x.length), sqSum m1x m2x σ ≤ sqSum m1x m2x τ := by
  refine ⟨c3_rel_37, ?_⟩
  rintro ⟨σ, hopt, -, hmin⟩
  rcases perm_fin_two σ with h | h <;> subst h
  · have h2 : sqSum m1x m2x (1 : Equiv.Perm (Fin 2)) ≤
        sqSum m1x m2x (Equiv.swap 0 1 : Equiv.Perm (Fin 2)) :=
      hmin (Equiv.swap 0 1 : Equiv.Perm (Fin 2))
    rw [c3_sqSum_id, c3_sqSum_swap] at h2
    norm_num at h2
  · have h2 : (∑ i : Fin 2,
        Real.sqrt ((sqdist (m1x.get i)
          (m2x.getD ((((Equiv.swap 0 1) : Equiv.Perm (Fin 2)) i : ℕ)) []) : ℚ) : ℝ)) ≤
      ∑ i : Fin 2,
        Real.sqrt ((sqdist (m1x.get i)
          (m2x.getD (((1 : Equiv.Perm (Fin 2)) i : ℕ)) []) : ℚ) : ℝ) :=
      hopt (1 : Equiv.Perm (Fin 2))
    rw [c3_lin_id, c3_lin_swap] at h2
    norm_num at h2

/-- C3 (amended): for every pair of 2-D descriptors, any value returned by
`fp_distance` is nonnegative and its square equals the sum of squared
matched distances under an assignment that minimizes the total matched
(non-squared) Euclidean distance — the solver objective is the linear sum
of distances, not the sum of squares, and the returned root is taken over
the squares only after that assignment is fixed. -/
theorem c3_assignment_objective (m1 m2 : List (List ℚ)) (r : ℝ)
    (h : fp_distance (.mat m1) (.mat m2) r) :
    0 ≤ r ∧ ∃ σ : Equiv.Perm (Fin m1.length), IsOptAssign m1 m2 σ ∧
      r * r = ((sqSum m1 m2 σ : ℚ) : ℝ) := by
  obtain ⟨-, σ, hopt, hr⟩ := h
  subst hr
  refine ⟨Real.sqrt_nonneg _, σ, hopt, ?_⟩
  exact Real.mul_self_sqrt (by exact_mod_cast sqSum_nonneg m1 m2 σ)

/-- Witness for `c3_assignment_objective` at the concrete pair
`m1x`/`m2x` with returned value 37. -/
theorem c3_assignment_objective_witness :
    0 ≤ (37 : ℝ) ∧ ∃ σ : Equiv.Perm (Fin m1x.length), IsOptAssign m1x m2x σ ∧
      (37 : ℝ) * 37 = ((sqSum m1x m2x σ : ℚ) : ℝ) :=
  c3_assignment_objective m1x m2x 37 c3_rel_37

/-- A record of the minima archives.  Modelled from the spec: the
`Minimum` class (module `minimum`) is not among the sources; per the spec
it is "an ordered, comparable value object" whose "Ordering relation
\[is\] primarily by `potential_energy()`, ascending".  Only the energy
sort key and the stored descriptor vector are relevant to the verified
claims, so the snapshot, visit count and tags are omitted. -/
structure MinRec where
  energy : ℚ
  fp : List ℚ
deriving DecidableEq, Repr

instance : Inhabited MinRec := ⟨⟨0, []⟩⟩

/-- `bisect.insort(self.all_minima_sorted, mini)` in
`Minimahopping._update_data` (mh.py line 507): order-preserving insertion
by ascending energy, placing the new record after any records of equal
energy (bisect-right semantics). -/
def insort (xs : List MinRec) (x : MinRec) : List MinRec :=
  match xs with
  | [] => [x]
  | y :: ys => if x.energy < y.energy then x :: y :: ys else y :: insort ys x

/-- `self.all_minima_sorted.sort()` in `Minimahopping._startup`
(mh.py line 206): the one full ascending sort at restart, modelled as
iterated order-preserving insertion. -/
def pySort (xs : List MinRec) : List MinRec := xs.foldl insort []

lemma mem_insort (a x : MinRec) (xs : List MinRec) :
    a ∈ insort xs x ↔ a = x ∨ a ∈ xs := by
  induction xs with
  | nil => simp [insort]
  | cons y ys ih =>
    by_cases hlt : x.energy < y.energy
    · rw [insort, if_pos hlt]
      simp
    · rw [insort, if_neg hlt]
      simp only [List.mem_cons, ih]
      tauto

lemma insort_sorted (x : MinRec) (xs : List MinRec)
    (h : List.Sorted (fun a b : MinRec => a.energy ≤ b.energy) xs) :
    List.Sorted (fun a b : MinRec => a.energy ≤ b.energy) (insort xs x) := by
  induction xs with
  | nil => simp [insort]
  | cons y ys ih =>
    rw [List.sorted_cons] at h
    by_cases hlt : x.energy < y.energy
    · rw [insort, if_pos hlt, List.sorted_cons]
      refine ⟨?_, List.sorted_cons.2 h⟩
      intro b hb
      rcases List.mem_cons.1 hb with hb | hb
      · exact hb ▸ le_of_lt hlt
      · exact le_trans (le_of_lt hlt) (h.1 b hb)
    · rw [insort, if_neg hlt, List.sorted_cons]
      refine ⟨?_, ih h.2⟩
      intro b hb
      rcases (mem_insort b x ys).1 hb with hb | hb
      · exact hb ▸ le_of_not_lt hlt
      · exact h.1 b hb

lemma foldl_insort_sorted (l : List MinRec) (s : List MinRec)
    (h : List.Sorted (fun a b : MinRec => a.energy ≤ b.energy) s) :
    List.Sorted (fun a b : MinRec => a.energy ≤ b.energy) (l.foldl insort s) := by
  induction l generalizing s with
  | nil => exact h
  | cons x xs ih => exact ih _ (insort_sorted x s h)

/-- C6: after the single full sort at restart (`pySort`) and any sequence
of record insertions by the run driver — each an order-preserving
`bisect.insort`, never a re-sort — the energy-sorted archive is
non-decreasing in the records' potential energy. -/
theorem c6_archive_sorted_invariant (init inserts : List MinRec) :
    List.Sorted (fun a b : MinRec => a.energy ≤ b.energy)
      (inserts.foldl insort (pySort init)) :=
  foldl_insort_sorted inserts (pySort init)
    (foldl_insort_sorted init [] (List.sorted_nil))

/-- The duplicate test of `_in_history_fp` (mh.py lines 442-443, 457-458):
`fp_distance(fp1, fp2) / fp2.shape[0] < minima_threshold` for the
vector-fingerprint case, decided over the squared quantities; lemma
`isDup_iff` shows it equivalent to the source formula
`sqrt (sqdist fp1 fp2) / len fp2 < θ`. -/
def isDup (θ : ℚ) (fp1 fp2 : List ℚ) : Bool :=
  decide (sqdist fp1 fp2 < (θ * fp2.length) * (θ * fp2.length))

lemma isDup_iff (θ : ℚ) (fp1 fp2 : List ℚ) (hn : 0 < fp2.length) (hθ : 0 < θ) :
    (isDup θ fp1 fp2 = true ↔
      Real.sqrt ((sqdist fp1 fp2 : ℚ) : ℝ) / ((fp2.length : ℕ) : ℝ) < (θ : ℝ)) := by
  rw [isDup, decide_eq_true_eq]
  have hn2 : (0 : ℝ) < ((fp2.length : ℕ) : ℝ) := by exact_mod_cast hn
  have hpos : (0 : ℝ) < (θ : ℝ) * ((fp2.length : ℕ) : ℝ) := by
    have : (0 : ℝ) < (θ : ℝ) := by exact_mod_cast hθ
    positivity
  rw [div_lt_iff₀ hn2, Real.sqrt_lt' hpos,
    show ((θ : ℝ) * ((fp2.length : ℕ) : ℝ)) ^ 2 =
      (((θ * fp2.length) * (θ * fp2.length) : ℚ) : ℝ) by push_cast; ring]
  exact_mod_cast Iff.rfl

/-- `bisect.bisect(self.all_minima_sorted, mini)` (mh.py line 426) on an
energy-sorted archive: the insertion point lying to the right of every
record whose spec-modelled energy order does not exceed the query
(`mini < s` iff the query energy is below `s.energy`). -/
def bisectRight (xs : List MinRec) (e : ℚ) : ℕ :=
  (xs.takeWhile (fun s => !(decide (e < s.energy)))).length

/-- The backward scan of `_in_history_fp` (mh.py lines 431-445): while the
last computed `_energy_difference` stays below `eThr`, step left from the
insertion point, breaking when the index drops below 0; at each visited
record the energy difference to the query is recomputed and the duplicate
count incremented when the normalized fingerprint distance is below `θ`.
Returns the count together with the final `_energy_difference`, which the
source leaves in scope for the forward scan. -/
def backScan (eThr θ : ℚ) (arch : List MinRec) (epot : ℚ) (fp1 : List ℚ)
    (ediff : ℚ) (ic i : ℕ) : ℕ × ℚ :=
  if ediff < eThr then
    if h : ic = 0 then (i, ediff)
    else
      backScan eThr θ arch epot fp1
        (|(arch.getD (ic - 1) default).energy - epot|) (ic - 1)
        (if isDup θ fp1 (arch.getD (ic - 1) default).fp then i + 1 else i)
  else (i, ediff)
termination_by ic
decreasing_by omega

/-- The forward scan of `_in_history_fp` (mh.py lines 447-459): starting
from the unreset `_energy_difference` left by the backward scan, step
right from the insertion point — the first visited index is
`_i_start + 1` — breaking when `_i_compare + 1 > len(arch)`. -/
def fwdScan (eThr θ : ℚ) (arch : List MinRec) (epot : ℚ) (fp1 : List ℚ)
    (ediff : ℚ) (ic i : ℕ) : ℕ :=
  if ediff < eThr then
    if h : arch.length < ic + 1 + 1 then i
    else
      fwdScan eThr θ arch epot fp1
        (|(arch.getD (ic + 1) default).energy - epot|) (ic + 1)
        (if isDup θ fp1 (arch.getD (ic + 1) default).fp then i + 1 else i)
  else i
termination_by arch.length - ic
decreasing_by omega

/-- `Minimahopping._in_history_fp` (mh.py lines 419-460): bisect the
energy-sorted archive at the query, run the backward scan with the count
started at 1 and `_energy_difference = 0`, then run the forward scan from
the same insertion point, reusing the backward scan's final
`_energy_difference` as its entry value. -/
def in_history_fp (eThr θ : ℚ) (arch : List MinRec) (q : MinRec) : ℕ :=
  fwdScan eThr θ arch q.energy q.fp
    (backScan eThr θ arch q.energy q.fp 0 (bisectRight arch q.energy) 1).2
    (bisectRight arch q.energy)
    (backScan eThr θ arch q.energy q.fp 0 (bisectRight arch q.energy) 1).1

/-- Failing input for the novelty-count claim: one archived record at
energy 1 with fingerprint `[0]`, queried at energy `1 - 1/100000` (within
`energy_threshold` of the record) with the identical fingerprint. -/
def c1arch : List MinRec := [⟨1, [0]⟩]

def c1query : MinRec := ⟨1 - 1/100000, [0]⟩

lemma c1_bisect : bisectRight c1arch c1query.energy = 0 := by
  norm_num [bisectRight, c1arch, c1query, List.takeWhile]

lemma c1_back : backScan energy_threshold_default minima_threshold_default
    c1arch c1query.energy c1query.fp 0 0 1 = (1, 0) := by
  rw [backScan]
  norm_num [energy_threshold_default]

lemma c1_fwd : fwdScan energy_threshold_default minima_threshold_default
    c1arch c1query.energy c1query.fp 0 0 1 = 1 := by
  rw [fwdScan]
  norm_num [energy_threshold_default, c1arch]

/-- C1 (code evaluated at the failing input): the archived record is
within `energy_threshold` of the query and at fingerprint distance 0 from
it, yet `_in_history_fp` returns a novelty count of 1, not ≥ 2.  The
backward scan breaks immediately (insertion point 0, index −1), and the
forward scan — whose first visited index is one past the insertion point
and whose energy-difference state is inherited unreset from the backward
scan — never visits the record at index 0, so the scan is not symmetric. -/
theorem c1_novelty_undercount :
    in_history_fp energy_threshold_default minima_threshold_default c1arch c1query = 1 ∧
    |(c1arch.getD 0 default).energy - c1query.energy| < energy_threshold_default ∧
    isDup minima_threshold_default c1query.fp (c1arch.getD 0 default).fp = true := by
  refine ⟨?_, ?_, ?_⟩
  · rw [in_history_fp, c1_bisect, c1_back, c1_fwd]
  · norm_num [c1arch, c1query, energy_threshold_default, abs_lt]
  · norm_num [isDup, sqdist, c1arch, c1query, minima_threshold_default]

/-- The values of `self._acc_rej` (mh.py strings `'Initial'`, `'Inter'`,
`'Same'`, `'Accepted'`, `'Rejected'`, `'NA'`). -/
inductive AccTag where
  | initial | inter | same | accepted | rejected | na
deriving DecidableEq, Repr

/-- The mutable state touched by `Minimahopping._acc_rej_step`:
the adaptive threshold `self._Ediff`, the energy of `self._atoms_cur`,
the list `self.intermediate_minima` (tracked by candidate energies) and
the tag `self._acc_rej`. -/
structure AccState where
  ediff : ℚ
  cur : ℚ
  inter : List ℚ
  tag : AccTag
deriving DecidableEq, Repr

/-- One iteration of the `for atom in self.intermediate_minima` loop of
`_acc_rej_step` (mh.py lines 396-408).  `epotCur` is `_e_pot_cur`,
computed once before the loop and never refreshed after an accept.
An accept multiplies `Ediff` by `alpha_a`, replaces the reference
structure and rebinds `self.intermediate_minima` to `[]`; a reject
multiplies `Ediff` by `alpha_r` and leaves the rest unchanged. -/
def accRejOne (epotCur αa αr : ℚ) (st : AccState) (e : ℚ) : AccState :=
  if e - epotCur < st.ediff then
    { ediff := st.ediff * αa, cur := e, inter := [], tag := .accepted }
  else
    { st with ediff := st.ediff * αr, tag := .rejected }

/-- `Minimahopping._acc_rej_step` (mh.py lines 393-408): fold of
`accRejOne` over the candidate list captured at loop entry (Python keeps
iterating the original list object even after the attribute is rebound to
`[]` on an accept). -/
def acc_rej_step (epotCur αa αr : ℚ) (st : AccState) : AccState :=
  st.inter.foldl (accRejOne epotCur αa αr) st

/-- C7: each candidate processed by the acceptance policy multiplies the
adaptive threshold exactly once — by `alpha_a` on an accept and by
`alpha_r` on a reject — with the default factors `alpha_a = 0.95 < 1` and
`alpha_r = 1.05 > 1`; and a fresh run with `Ediff0 = 0.01` that accepts
its first hop ends that call with `Ediff = 0.0095`. -/
theorem c7_threshold_update_sign :
    alpha_a < 1 ∧ 1 < alpha_r ∧
    (∀ (epotCur αa αr e : ℚ) (st : AccState),
      (e - epotCur < st.ediff →
        (accRejOne epotCur αa αr st e).ediff = st.ediff * αa ∧
        (accRejOne epotCur αa αr st e).tag = .accepted) ∧
      (¬ e - epotCur < st.ediff →
        (accRejOne epotCur αa αr st e).ediff = st.ediff * αr ∧
        (accRejOne epotCur αa αr st e).tag = .rejected)) ∧
    (∀ epotCur e : ℚ, e - epotCur < Ediff0 →
      (acc_rej_step epotCur alpha_a alpha_r
        { ediff := Ediff0, cur := epotCur, inter := [e], tag := .inter }).ediff
        = 19/2000) := by
  refine ⟨by norm_num [alpha_a], by norm_num [alpha_r], ?_, ?_⟩
  · intro epotCur αa αr e st
    constructor
    · intro h
      simp [accRejOne, h]
    · intro h
      simp [accRejOne, h]
  · intro epotCur e h
    simp only [acc_rej_step, List.foldl, accRejOne]
    rw [if_pos h]
    norm_num [Ediff0, alpha_a]

/-- Witness for `c7_threshold_update_sign`: an accepted candidate at
energy below the reference multiplies the default threshold to 0.0095,
and a rejected one multiplies it by `alpha_r`. -/
theorem c7_threshold_update_sign_witness :
    ((accRejOne 0 alpha_a alpha_r { ediff := Ediff0, cur := 0, inter := [5], tag := .inter } 5).ediff
      = Ediff0 * alpha_r ∧
     (accRejOne 0 alpha_a alpha_r { ediff := Ediff0, cur := 0, inter := [5], tag := .inter } 5).tag
      = .rejected) ∧
    (acc_rej_step 0 alpha_a alpha_r
      { ediff := Ediff0, cur := 0, inter := [-1], tag := .inter }).ediff = 19/2000 :=
  ⟨(c7_threshold_update_sign.2.2.1 0 alpha_a alpha_r 5
      { ediff := Ediff0, cur := 0, inter := [5], tag := .inter }).2
      (by norm_num [Ediff0]),
   c7_threshold_update_sign.2.2.2 0 (-1) (by norm_num [Ediff0])⟩

lemma foldl_accRej_all_rejected (epotCur αa αr : ℚ) (l : List ℚ) (st : AccState)
    (h : ∀ k : ℕ, k < l.length → ¬ (l.getD k 0 - epotCur < st.ediff * αr ^ k)) :
    (l.foldl (accRejOne epotCur αa αr) st).inter = st.inter ∧
    (l.foldl (accRejOne epotCur αa αr) st).ediff = st.ediff * αr ^ l.length ∧
    (l.foldl (accRejOne epotCur αa αr) st).cur = st.cur := by
  induction l generalizing st with
  | nil => simp
  | cons e l ih =>
    have h0 : ¬ (e - epotCur < st.ediff) := by
      have := h 0 (by simp)
      simpa using this
    have hstep : accRejOne epotCur αa αr st e =
        { st with ediff := st.ediff * αr, tag := .rejected } := by
      simp [accRejOne, h0]
    have hrec := ih { st with ediff := st.ediff * αr, tag := .rejected } ?_
    · rw [List.foldl_cons, hstep]
      refine ⟨hrec.1, ?_, hrec.2.2⟩
      rw [hrec.2.1]
      simp only [List.length_cons, pow_succ]
      ring
    · intro k hk
      have := h (k + 1) (by simpa using Nat.succ_lt_succ hk)
      simp only [List.getD_cons_succ] at this
      intro hc
      apply this
      calc l.getD k 0 - epotCur < st.ediff * αr * αr ^ k := hc
        _ = st.ediff * αr ^ (k + 1) := by rw [pow_succ]; ring

/-- C10: when every intermediate candidate fails the acceptance test at
its turn (the threshold having been multiplied by `alpha_r` once per
preceding candidate), `_acc_rej_step` leaves `self.intermediate_minima`
and the reference structure unchanged — the list is rebound to `[]` only
on an accept — and multiplies `Ediff` by `alpha_r` once per stored
candidate, so candidates rejected in one hop are re-evaluated, each
multiplying `Ediff` once more, in every later hop until an accept. -/
theorem c10_rejected_candidates_persist (epotCur αa αr : ℚ) (st : AccState)
    (h : ∀ k : ℕ, k < st.inter.length →
      ¬ (st.inter.getD k 0 - epotCur < st.ediff * αr ^ k)) :
    (acc_rej_step epotCur αa αr st).inter = st.inter ∧
    (acc_rej_step epotCur αa αr st).ediff = st.ediff * αr ^ st.inter.length ∧
    (acc_rej_step epotCur αa αr st).cur = st.cur :=
  foldl_accRej_all_rejected epotCur αa αr st.inter st h

/-- Witness for `c10_rejected_candidates_persist`: two stored candidates
far above the reference survive the call untouched while the threshold is
multiplied by `alpha_r` twice. -/
theorem c10_rejected_candidates_persist_witness :
    (acc_rej_step 0 alpha_a alpha_r
      { ediff := Ediff0, cur := 0, inter := [1, 1], tag := .inter }).inter = [1, 1] ∧
    (acc_rej_step 0 alpha_a alpha_r
      { ediff := Ediff0, cur := 0, inter := [1, 1], tag := .inter }).ediff
      = Ediff0 * alpha_r ^ 2 ∧
    (acc_rej_step 0 alpha_a alpha_r
      { ediff := Ediff0, cur := 0, inter := [1, 1], tag := .inter }).cur = 0 :=
  c10_rejected_candidates_persist 0 alpha_a alpha_r
    { ediff := Ediff0, cur := 0, inter := [1, 1], tag := .inter }
    (by
      intro k hk
      simp only [List.length_cons, List.length_nil] at hk
      interval_cases k <;> norm_num [Ediff0, alpha_r])

/-- The state touched by `Minimahopping._adj_temperature`: the working
temperature, the unique/not-unique counters, the `self.unique_minima`
snapshots (tracked by an abstract identifier) and the number of
fingerprint records persisted by `_write_fp` to `fp.dat`. -/
structure TempState where
  temperature : ℚ
  n_unique : ℕ
  n_notunique : ℕ
  unique_minima : List ℚ
  persisted_fp : ℕ
deriving DecidableEq, Repr

/-- `Minimahopping._adj_temperature` (mh.py lines 462-474).  The external
`np.log` is abstracted as `lg` (an IEEE float result is a rational; for
`n ≥ 2` the true `np.log n` is positive).  If the novelty count exceeds 1,
the temperature is multiplied by `beta_increase` — scaled by
`(1 + 1*log(n_visits))` when `enhanced_feedback` is set — and the
not-unique counter advances; otherwise the temperature is multiplied by
`beta_decrease`, the structure is appended to `self.unique_minima`, the
snapshot is written to `min.extxyz` and its fingerprint appended to
`fp.dat`. -/
def adj_temperature (lg : ℕ → ℚ) (enhanced : Bool) (βinc βdec : ℚ)
    (n_visits : ℕ) (atoms : ℚ) (st : TempState) : TempState :=
  if 1 < n_visits then
    { st with
      n_notunique := st.n_notunique + 1,
      temperature :=
        if enhanced then st.temperature * βinc * (1 + 1 * lg n_visits)
        else st.temperature * βinc }
  else
    { st with
      n_unique := st.n_unique + 1,
      temperature := st.temperature * βdec,
      unique_minima := st.unique_minima ++ [atoms],
      persisted_fp := st.persisted_fp + 1 }

/-- C8: run once per hop, the temperature controller multiplies the
temperature by `beta_decrease < 1` when the novelty count is 1 — also
appending the structure to the unique-minima collection and persisting
its descriptor — and by a factor exceeding 1 (namely `beta_increase`, or
`beta_increase * (1 + log n)` under enhanced feedback) when the count
exceeds 1; exactly one branch fires, advancing exactly one of the two
counters. -/
theorem c8_temperature_controller :
    beta_decrease < 1 ∧ 1 < beta_increase ∧
    ∀ (lg : ℕ → ℚ) (enhanced : Bool) (βinc βdec : ℚ) (n : ℕ) (a : ℚ) (st : TempState),
      (n = 1 →
        (adj_temperature lg enhanced βinc βdec n a st).temperature
          = st.temperature * βdec ∧
        (adj_temperature lg enhanced βinc βdec n a st).unique_minima
          = st.unique_minima ++ [a] ∧
        (adj_temperature lg enhanced βinc βdec n a st).persisted_fp
          = st.persisted_fp + 1) ∧
      (1 < n → 1 < βinc → 0 ≤ lg n →
        ∃ f : ℚ, 1 < f ∧
          (adj_temperature lg enhanced βinc βdec n a st).temperature
            = st.temperature * f ∧
          (adj_temperature lg enhanced βinc βdec n a st).unique_minima
            = st.unique_minima) ∧
      (adj_temperature lg enhanced βinc βdec n a st).n_unique
          + (adj_temperature lg enhanced βinc βdec n a st).n_notunique
        = st.n_unique + st.n_notunique + 1 := by
  refine ⟨by norm_num [beta_decrease], by norm_num [beta_increase], ?_⟩
  intro lg enhanced βinc βdec n a st
  refine ⟨?_, ?_, ?_⟩
  · intro hn
    subst hn
    simp [adj_temperature]
  · intro hn hβ hlg
    cases enhanced with
    | false =>
      exact ⟨βinc, hβ, by simp [adj_temperature, hn], by simp [adj_temperature, hn]⟩
    | true =>
      refine ⟨βinc * (1 + 1 * lg n), by nlinarith, ?_, by simp [adj_temperature, hn]⟩
      simp only [adj_temperature, if_pos hn, if_true]
      ring_nf
  · by_cases hn : 1 < n <;> simp [adj_temperature, hn] <;> omega

/-- Witness for `c8_temperature_controller` at novelty counts 1 and 2
with the default factors and enhanced feedback off. -/
theorem c8_temperature_controller_witness :
    ((adj_temperature (fun _ => 1) false beta_increase beta_decrease 1 5
        ⟨2000, 0, 0, [], 0⟩).temperature = 2000 * beta_decrease ∧
     (adj_temperature (fun _ => 1) false beta_increase beta_decrease 1 5
        ⟨2000, 0, 0, [], 0⟩).unique_minima = [] ++ [5] ∧
     (adj_temperature (fun _ => 1) false beta_increase beta_decrease 1 5
        ⟨2000, 0, 0, [], 0⟩).persisted_fp = 0 + 1) ∧
    (∃ f : ℚ, 1 < f ∧
      (adj_temperature (fun _ => 1) false beta_increase beta_decrease 2 5
        ⟨2000, 0, 0, [], 0⟩).temperature = 2000 * f ∧
      (adj_temperature (fun _ => 1) false beta_increase beta_decrease 2 5
        ⟨2000, 0, 0, [], 0⟩).unique_minima = []) :=
  ⟨(c8_temperature_controller.2.2 (fun _ => 1) false beta_increase beta_decrease 1 5
      ⟨2000, 0, 0, [], 0⟩).1 rfl,
   ((c8_temperature_controller.2.2 (fun _ => 1) false beta_increase beta_decrease 2 5
      ⟨2000, 0, 0, [], 0⟩).2.1 (by norm_num) (by norm_num [beta_increase]) (by norm_num))⟩

/-- The restart decision of `Minimahopping._startup` (mh.py lines
149-159) as a function of which archive files exist and of the
`new_start` flag.  `Except.error` is a failed `assert` (the run aborts);
`Except.ok b` continues with `_is_restart = b`.  When only one of
`min.extxyz` / `history.dat` exists, the set `{_is_history,
_is_unique_minima}` has two elements and the assertion
`len(is_files) == 1` fails. -/
def startupRestart (isMin isHist newStart : Bool) : Except String Bool :=
  if isMin && isHist then
    .ok (!newStart)
  else if isHist == isMin then
    .ok false
  else
    .error "Some but not all files exist for a restart."

/-- The fingerprint-cache stage of the restart branch of `_startup`
(mh.py lines 175-198) as a function of whether `fp.dat` exists, the
`restart_optim` flag, and the record counts of the cache and of the
unique-minima file.  `Except.ok recompute`: `recompute = false` reuses the
cached fingerprints, `recompute = true` recalculates them all (with a
warning); `Except.error` is the failed length assertion (the run
aborts). -/
def restartFpStage (fpExists restartOptim : Bool) (nFp nMin : ℕ) : Except String Bool :=
  if fpExists && !restartOptim then
    if nFp == nMin then
      .ok false
    else
      .error "FP and minima file have not the same length, delete fp file for fp recalculation"
  else
    .ok true

/-- `file_handling.restart` (file_handling.py lines 4-33) as a function of
whether the output and restart directories pre-exist and whether
`checkfiles` found all required restart files.  Returns
`(is_restart, warned)`: a pre-existing output directory with missing
restart data degrades to a fresh start with a non-fatal warning. -/
def fh_restart (isOutput isRestartDir filesOk : Bool) : Bool × Bool :=
  if isRestartDir && isOutput then
    (filesOk, !filesOk)
  else if isOutput && !isRestartDir then
    (false, true)
  else
    (false, false)

/-- C4 (counterexample): with the unique-minima file present and the
history file absent — exactly one of the two archive files exists —
`_startup` does not degrade to a fresh start: the assertion
`len(is_files) == 1` fails and the run aborts.  Likewise, a fingerprint
cache whose record count (3) differs from the unique-structures count (5)
aborts on the length assertion instead of forcing recomputation. -/
theorem c4_counterexample :
    startupRestart true false false
      = .error "Some but not all files exist for a restart." ∧
    restartFpStage true false 3 5
      = .error "FP and minima file have not the same length, delete fp file for fp recalculation" :=
  ⟨rfl, rfl⟩

/-- C4 (amended): in `mh.py`'s `_startup`, partially-present archive files
and a descriptor-cache length mismatch are FATAL assertions; the
documented non-fatal fallbacks are narrower: a fresh start happens when
neither archive file exists (or `new_start` forces one), and descriptor
recomputation (with a warning) happens only when the cache file is absent
or `restart_optim` is set.  The separate `file_handling.restart` helper
does degrade non-fatally — output present without restart data falls back
to a fresh start with a warning. -/
theorem c4_restart_fallbacks :
    (∀ newStart : Bool,
      startupRestart true false newStart
          = .error "Some but not all files exist for a restart." ∧
      startupRestart false true newStart
          = .error "Some but not all files exist for a restart." ∧
      startupRestart false false newStart = .ok false ∧
      startupRestart true true newStart = .ok (!newStart)) ∧
    (∀ (nFp nMin : ℕ) (restartOptim : Bool),
      restartFpStage false restartOptim nFp nMin = .ok true ∧
      restartFpStage true true nFp nMin = .ok true ∧
      (nFp ≠ nMin → restartFpStage true false nFp nMin
        = .error "FP and minima file have not the same length, delete fp file for fp recalculation") ∧
      (nFp = nMin → restartFpStage true false nFp nMin = .ok false)) ∧
    (fh_restart true false true = (false, true) ∧
     fh_restart true true false = (false, true) ∧
     fh_restart true true true = (true, false)) := by
  refine ⟨fun newStart => ⟨rfl, rfl, rfl, rfl⟩, ?_, ⟨rfl, rfl, rfl⟩⟩
  intro nFp nMin restartOptim
  refine ⟨rfl, by simp [restartFpStage], ?_, ?_⟩
  · intro h
    simp [restartFpStage, h]
  · intro h
    simp [restartFpStage, h]

/-- Witness for `c4_restart_fallbacks`: the length-mismatch assertion at
counts 3 vs 5 and the cache-reuse path at equal counts. -/
theorem c4_restart_fallbacks_witness :
    restartFpStage true false 3 5
      = .error "FP and minima file have not the same length, delete fp file for fp recalculation" ∧
    restartFpStage true false 4 4 = .ok false :=
  ⟨(c4_restart_fallbacks.2.1 3 5 false).2.2.1 (by norm_num),
   (c4_restart_fallbacks.2.1 4 4 false).2.2.2 rfl⟩

/-- The hop loop of `Minimahopping.__call__` (mh.py lines 70-117) with an
unbounded time budget (`run_time = "infinit"`, so the early-return branch
never fires): `self._counter` starts at 0 (set in `__init__`), the loop
runs `while self._counter <= totalsteps`, and the counter is incremented
once per completed hop.  Returns the number of hop bodies executed. -/
def hopLoop (counter totalsteps : ℕ) : ℕ :=
  if counter ≤ totalsteps then hopLoop (counter + 1) totalsteps + 1
  else 0
termination_by totalsteps + 1 - counter
decreasing_by omega

/-- Hops executed by `mh(totalsteps)` on a fresh instance with an
unbounded time budget. -/
def hopsExecuted (totalsteps : ℕ) : ℕ := hopLoop 0 totalsteps

lemma hopLoop_eq (counter totalsteps : ℕ) (h : counter ≤ totalsteps + 1) :
    hopLoop counter totalsteps = totalsteps + 1 - counter := by
  by_cases hc : counter ≤ totalsteps
  · rw [hopLoop, if_pos hc, hopLoop_eq (counter + 1) totalsteps (by omega)]
    omega
  · rw [hopLoop, if_neg hc]
    omega
termination_by totalsteps + 1 - counter
decreasing_by omega

/-- C5 (code evaluated at the failing input): with a step budget
`totalsteps` and an unbounded time budget the driver executes
`totalsteps + 1` hops, not `totalsteps` — the loop admits every counter
value from 0 through `totalsteps` inclusive — even though its termination
message reports `totalsteps` steps; at `totalsteps = 1` two hops run. -/
theorem c5_off_by_one :
    hopsExecuted 1 = 2 ∧ ∀ totalsteps : ℕ, hopsExecuted totalsteps = totalsteps + 1 := by
  have h : ∀ totalsteps : ℕ, hopsExecuted totalsteps = totalsteps + 1 := by
    intro t
    rw [hopsExecuted, hopLoop_eq 0 t (by omega)]
    omega
  exact ⟨h 1, h⟩

end MH
